import Mathlib

/-!
Shallow embedding of the `wyoming_silero` streaming sentence-segmentation
engine (`wyoming_silero/sentence_boundary.py`) and of the session
orchestrator (`wyoming_silero/handler.py`), together with theorems about
the frozen claims on this code.

Strings are modelled as `List Char`.  The Unicode character classes used
by the Python `regex` patterns (`\p{L}`, `\p{Ll}`, `\p{Lu}`,
`\p{IsCyrillic}`, `\s`, `\d`, `\w`) are modelled for the ASCII and
Cyrillic repertoire this repository processes (the Silero model is a
Russian TTS; the cleanup rules target Latin and Cyrillic text).
Generators become functions returning the list of yielded values, and the
unbounded `while True` loop of `add_chunk` becomes a fuel-indexed
function returning `none` when the fuel is exhausted.
-/

namespace WyomingSilero

/-- `\p{IsCyrillic}` (the Unicode Cyrillic block U+0400 – U+04FF). -/
def isCyrillicChar (c : Char) : Bool :=
  0x400 ≤ c.toNat && c.toNat ≤ 0x4FF

/-- `\p{L}` restricted to ASCII letters and the Cyrillic block. -/
def isLetterChar (c : Char) : Bool :=
  c.isAlpha || isCyrillicChar c

/-- `\p{Ll}` restricted to ASCII and Cyrillic (а–я and ё). -/
def isLowerChar (c : Char) : Bool :=
  (c.isAlpha && c.isLower) || (0x430 ≤ c.toNat && c.toNat ≤ 0x44F) || c.toNat = 0x451

/-- `\p{Lu}` restricted to ASCII and Cyrillic (А–Я and Ё). -/
def isUpperChar (c : Char) : Bool :=
  (c.isAlpha && c.isUpper) || (0x410 ≤ c.toNat && c.toNat ≤ 0x42F) || c.toNat = 0x401

/-- `\w` (word character): letter, decimal digit, or underscore. -/
def isWordChar (c : Char) : Bool :=
  isLetterChar c || c.isDigit || c = '_'

/-- Python `\s` / `str.isspace` for the usual whitespace characters
(space, tab, newline, carriage return, vertical tab, form feed). -/
def isSpaceChar (c : Char) : Bool :=
  c == ' ' || c == '\t' || c == '\n' || c == '\r' || c.toNat == 11 || c.toNat == 12

/-- The sentence terminator set `[.!?…]` captured by
`SENTENCE_BOUNDARY_RE` (sentence_boundary.py line 18). -/
def isSentSep (c : Char) : Bool :=
  c == '.' || c == '!' || c == '?' || c == '…'

/-- Negative lookbehind `(?<!\b\p{L}{1,3})` of `SENTENCE_BOUNDARY_RE`
(line 16): true when some run of 1–3 letters ending right before
position `i` starts at a word boundary (a short word or initial such as
"г." or "ул."). -/
def shortWordBefore (buf : List Char) (i : Nat) : Bool :=
  [1, 2, 3].any fun k =>
    decide (k ≤ i) &&
    ((List.range k).all fun j => isLetterChar (buf.getD (i - k + j) 'x')) &&
    (decide (i - k = 0) || !isWordChar (buf.getD (i - k - 1) 'x'))

/-- Negative lookbehind `(?<!\p{Ll}\.\p{Ll})` of `SENTENCE_BOUNDARY_RE`
(line 17): true when the three characters before position `i` read
lowercase, '.', lowercase (e.g. an inline identifier "файл.py"). -/
def lowerDotLowerBefore (buf : List Char) (i : Nat) : Bool :=
  decide (3 ≤ i) &&
  isLowerChar (buf.getD (i - 3) 'x') &&
  decide (buf.getD (i - 2) 'x' = '.') &&
  isLowerChar (buf.getD (i - 1) 'x')

/-- Lookahead `(?=\s+\p{Lu}|\s*$)` of `SENTENCE_BOUNDARY_RE` (line 19):
after the terminator either everything remaining is whitespace
(end of buffer), or at least one whitespace character is followed by an
uppercase letter. -/
def lookaheadOk (buf : List Char) (i : Nat) : Bool :=
  let rest := buf.drop (i + 1)
  rest.all isSpaceChar ||
    (match rest.dropWhile isSpaceChar with
     | [] => false
     | c :: _ => isUpperChar c && decide (1 ≤ (rest.takeWhile isSpaceChar).length))

/-- Whether `SENTENCE_BOUNDARY_RE` matches with the captured terminator
at index `i` of the buffer. -/
def boundaryAt (buf : List Char) (i : Nat) : Bool :=
  isSentSep (buf.getD i 'x') &&
  !shortWordBefore buf i &&
  !lowerDotLowerBefore buf i &&
  lookaheadOk buf i

/-- `SENTENCE_BOUNDARY_RE.search(buffer)` (line 80): position of the
leftmost accepted sentence terminator, if any. -/
def findBoundary (buf : List Char) : Option Nat :=
  (List.range buf.length).find? (boundaryAt buf)

/-- Hard limit on the pending buffer (sentence_boundary.py line 10). -/
def HARD_LIMIT : Nat := 350

/-- Merge threshold for held fragments (sentence_boundary.py line 11). -/
def MERGE_BUFFER_LIMIT : Nat := 20

/-- `buffer.rfind(' ', 0, hi)` (line 86): index of the last space among
positions `< min hi buffer.length`, `none` standing for Python's `-1`. -/
def rfindSpace (buf : List Char) (hi : Nat) : Option Nat :=
  (List.range (min hi buf.length)).reverse.find? fun i => buf.getD i 'x' == ' '

/-! ## The cleanup pass `post_clean_sentence` (lines 27–47)

Each Python `re.sub` becomes a left-to-right scan.  The scans use an
explicit fuel argument (initialised with the length of the list); every
step consumes at least one character, so the fuel never runs out on the
initial value. -/

/-- One attempted match of `\s*\((.*?)\)` starting at the head of `cs`:
optional whitespace, an opening parenthesis, then the shortest run of
non-newline characters up to a closing parenthesis.  Returns the inner
content and the remainder after the match. -/
def parenMatch (cs : List Char) : Option (List Char × List Char) :=
  let ws := cs.takeWhile isSpaceChar
  match cs.drop ws.length with
  | '(' :: rest =>
    let inner := rest.takeWhile fun c => !(c == ')') && !(c == '\n')
    match rest.drop inner.length with
    | ')' :: after => some (inner, after)
    | _ => none
  | _ => none

/-- `re.sub(r"\s*\((.*?)\)", r", \1, ", s)` (line 30): rewrite
parenthetical asides into comma-delimited clauses. -/
def parenSubGo : Nat → List Char → List Char
  | 0, cs => cs
  | _, [] => []
  | fuel + 1, c :: cs =>
    match parenMatch (c :: cs) with
    | some (inner, after) => ',' :: ' ' :: (inner ++ ',' :: ' ' :: parenSubGo fuel after)
    | none => c :: parenSubGo fuel cs

/-- One attempted match of `LIST_ITEM_RE` = `^\s*(?:(\d+)\.|([*-]))\s*(.*)`
at a line start: leading whitespace (which, being greedy, may span
newlines), then either digits followed by a period or a bullet, more
whitespace, and the rest of the line.  Returns the replacement text
(`"{num}, {text}"` for a numbered item, `text` for a bullet, as in
`list_replacer`, lines 32–36) and the remainder. -/
def listItemMatch (cs : List Char) : Option (List Char × List Char) :=
  let ws := cs.dropWhile isSpaceChar
  match ws with
  | c :: _ =>
    if c.isDigit then
      let digits := ws.takeWhile Char.isDigit
      match ws.drop digits.length with
      | '.' :: rest =>
        let rest2 := rest.dropWhile isSpaceChar
        let text := rest2.takeWhile fun d => !(d == '\n')
        some (digits ++ ',' :: ' ' :: text, rest2.drop text.length)
      | _ => none
    else if c == '*' || c == '-' then
      let rest2 := (ws.drop 1).dropWhile isSpaceChar
      let text := rest2.takeWhile fun d => !(d == '\n')
      some (text, rest2.drop text.length)
    else none
  | [] => none

/-- `LIST_ITEM_RE.sub(list_replacer, s)` (line 38).  The Boolean records
whether the current position is a line start (`^` with `re.MULTILINE`). -/
def listItemSubGo : Nat → Bool → List Char → List Char
  | 0, _, cs => cs
  | _, _, [] => []
  | fuel + 1, atStart, c :: cs =>
    match if atStart then listItemMatch (c :: cs) else none with
    | some (repl, after) => repl ++ listItemSubGo fuel false after
    | none => c :: listItemSubGo fuel (c == '\n') cs

/-- `s.replace('\n', ' ').replace(';', '.')` (line 39). -/
def replaceNlSemi (cs : List Char) : List Char :=
  cs.map fun c => if c == '\n' then ' ' else if c == ';' then '.' else c

/-- One attempted match of `\b([\p{IsCyrillic}]{1,3})\.\s+(?=\p{Lu})` at
the head of `cs`, which must sit at a word boundary: a run of at most
three Cyrillic letters, a period, at least one whitespace character, and
an uppercase letter ahead.  Returns the replacement `"\1, "` and the
remainder (the lookahead is not consumed). -/
def cyrAbbrevMatch (cs : List Char) : Option (List Char × List Char) :=
  let run := cs.takeWhile isCyrillicChar
  if run.length == 0 || 3 < run.length then none
  else
    match cs.drop run.length with
    | '.' :: rest =>
      let ws := rest.takeWhile isSpaceChar
      if ws.length == 0 then none
      else
        match rest.drop ws.length with
        | d :: _ => if isUpperChar d then some (run ++ [',', ' '], rest.drop ws.length) else none
        | [] => none
    | _ => none

/-- `re.sub(r"\b([\p{IsCyrillic}]{1,3})\.\s+(?=\p{Lu})", r"\1, ", s)`
(line 40): soften a kept Cyrillic abbreviation into a pause.  The
Boolean records whether the previous character was a word character (so
`\b` fails). -/
def cyrAbbrevSubGo : Nat → Bool → List Char → List Char
  | 0, _, cs => cs
  | _, _, [] => []
  | fuel + 1, prevWord, c :: cs =>
    match if prevWord then none else cyrAbbrevMatch (c :: cs) with
    | some (repl, after) => repl ++ cyrAbbrevSubGo fuel false after
    | none => c :: cyrAbbrevSubGo fuel (isWordChar c) cs

/-- One attempted match of `\s*—\s*` at the head of `cs`: whitespace, an
em-dash, more whitespace.  Returns the remainder after the match. -/
def dashMatch (cs : List Char) : Option (List Char) :=
  match cs.dropWhile isSpaceChar with
  | c :: rest => if c == '—' then some (rest.dropWhile isSpaceChar) else none
  | [] => none

/-- `re.sub(r"\s*—\s*", ", ", s)` (line 43). -/
def dashSubGo : Nat → List Char → List Char
  | 0, cs => cs
  | _, [] => []
  | fuel + 1, c :: cs =>
    match dashMatch (c :: cs) with
    | some after => ',' :: ' ' :: dashSubGo fuel after
    | none => c :: dashSubGo fuel cs

/-- `re.sub(r"\s+", " ", s)` (line 44): collapse whitespace runs. -/
def collapseWsGo : Nat → List Char → List Char
  | 0, cs => cs
  | _, [] => []
  | fuel + 1, c :: cs =>
    if isSpaceChar c then ' ' :: collapseWsGo fuel (cs.dropWhile isSpaceChar)
    else c :: collapseWsGo fuel cs

/-- Greedy parse of the repetitions of `([,.]\s*)` starting at `cs`:
each repetition is a comma or period followed by its (greedy) trailing
whitespace.  Returns the list of repetitions and the remainder. -/
def punctReps : Nat → List Char → List (List Char) × List Char
  | 0, cs => ([], cs)
  | fuel + 1, cs =>
    match cs with
    | c :: rest =>
      if c == ',' || c == '.' then
        let ws := rest.takeWhile isSpaceChar
        let next := punctReps fuel (rest.drop ws.length)
        ((c :: ws) :: next.1, next.2)
      else ([], cs)
    | [] => ([], [])

/-- One attempted match of `\s*([,.]\s*){2,}` at the head of `cs`.  In
Python a repeated group captures its last iteration, so the replacement
`"\1 "` is that last repetition (punctuation mark plus its trailing
whitespace) followed by a space.  Returns that replacement prefix and
the remainder. -/
def dupPunctMatch (cs : List Char) : Option (List Char × List Char) :=
  let ws0 := cs.takeWhile isSpaceChar
  let parsed := punctReps cs.length (cs.drop ws0.length)
  if 2 ≤ parsed.1.length then some (parsed.1.getLastD [], parsed.2) else none

/-- `re.sub(r"\s*([,.]\s*){2,}", r"\1 ", s)` (line 46): collapse runs of
two or more punctuation marks. -/
def dupPunctSubGo : Nat → List Char → List Char
  | 0, cs => cs
  | _, [] => []
  | fuel + 1, c :: cs =>
    match dupPunctMatch (c :: cs) with
    | some (repl, after) => repl ++ ' ' :: dupPunctSubGo fuel after
    | none => c :: dupPunctSubGo fuel cs

/-- Python `str.strip()`: drop leading and trailing whitespace. -/
def stripWs (cs : List Char) : List Char :=
  ((cs.dropWhile isSpaceChar).reverse.dropWhile isSpaceChar).reverse

/-- `post_clean_sentence` (sentence_boundary.py lines 27–47): the
deterministic, order-sensitive cleanup rules applied once per cut
fragment. -/
def post_clean_sentence (s : List Char) : List Char :=
  let s1 := parenSubGo s.length s
  let s2 := listItemSubGo s1.length true s1
  let s3 := replaceNlSemi s2
  let s4 := cyrAbbrevSubGo s3.length false s3
  let s5 := s4.dropWhile fun c => c == '.' || c == ',' || isSpaceChar c
  let s6 := s5.filter fun c => !(c == '*' || c == '«' || c == '»' || c == '"')
  let s7 := dashSubGo s6.length s6
  let s8 := collapseWsGo s7.length s7
  let s9 := dupPunctSubGo s8.length s8
  stripWs s9

/-! ## The segmentation engine `SentenceBoundaryDetector` (lines 50–140) -/

/-- The mutable state of a `SentenceBoundaryDetector` (lines 51–53):
the pending buffer of un-cut text and the held accumulation of
fragments too short to emit. -/
structure SentenceBoundaryDetector where
  buffer : List Char
  held_sentence : List Char
  deriving DecidableEq, Repr

/-- `joiner = held[:-1] + ','` when the held text ends in a period,
then join with a single space (lines 67–70 and 131–134). -/
def joinHeld (held cleaned : List Char) : List Char :=
  (if held.getLast? = some '.' then held.dropLast ++ [','] else held) ++ ' ' :: cleaned

/-- `_maybe_yield` (lines 55–74) as a pure function: given the current
held accumulation and a raw cut fragment, return the list of yielded
sentence units (empty or a singleton) together with the new held
accumulation. -/
def maybe_yield (held t : List Char) : List (List Char) × List Char :=
  let cleaned := post_clean_sentence t
  if cleaned = [] then ([], held)
  else
    let newHeld := if held = [] then cleaned else joinHeld held cleaned
    if MERGE_BUFFER_LIMIT ≤ newHeld.length then ([newHeld], []) else ([], newHeld)

/-- One iteration decision of the `while True` loop of `add_chunk`
(lines 79–117): either stop and wait for more input, or cut the buffer
into a fragment and a remainder.  `wait` covers both the
no-match-and-no-overflow `break` (line 95) and the decimal-guard
`break` (lines 103–109); `cut` covers the forced hard-limit split
(lines 85–94) and the standard boundary cut (lines 113–117). -/
inductive StepResult where
  | wait : StepResult
  | cut (sentence rest : List Char) : StepResult
  deriving DecidableEq, Repr

/-- The cut decision taken by one loop iteration of `add_chunk` on the
current buffer. -/
def addChunkStep (buf : List Char) : StepResult :=
  match findBoundary buf with
  | none =>
    if HARD_LIMIT < buf.length then
      .cut (buf.take ((rfindSpace buf HARD_LIMIT).getD HARD_LIMIT))
           (buf.drop ((rfindSpace buf HARD_LIMIT).getD HARD_LIMIT))
    else .wait
  | some i =>
    if buf.getD i 'x' = '.' ∧ i + 1 = buf.length ∧ 0 < i ∧ (buf.getD (i - 1) 'x').isDigit = true
    then .wait
    else .cut (buf.take (i + 1)) (buf.drop (i + 1))

/-- The `while True` loop of `add_chunk` with explicit fuel: returns the
yielded sentence units, the final buffer and the final held
accumulation, or `none` when the fuel runs out before the loop breaks. -/
def addChunkLoop : Nat → List Char → List Char → Option (List (List Char) × List Char × List Char)
  | 0, _, _ => none
  | fuel + 1, buf, held =>
    match addChunkStep buf with
    | .wait => some ([], buf, held)
    | .cut s r =>
      match addChunkLoop fuel r (maybe_yield held s).2 with
      | none => none
      | some (outs, b, h) => some ((maybe_yield held s).1 ++ outs, b, h)

/-- `add_chunk` (lines 76–117): append the chunk to the pending buffer
and run the cut loop, returning the yielded units and the new detector
state (or `none` when the fuel runs out). -/
def add_chunk (fuel : Nat) (st : SentenceBoundaryDetector) (chunk : List Char) :
    Option (List (List Char) × SentenceBoundaryDetector) :=
  match addChunkLoop fuel (st.buffer ++ chunk) st.held_sentence with
  | none => none
  | some (outs, b, h) => some (outs, ⟨b, h⟩)

/-- `finish` (lines 119–140): drain the remaining buffer into the held
accumulation without emission, clear both fields, and return the
accumulated text. -/
def finish (st : SentenceBoundaryDetector) : List Char × SentenceBoundaryDetector :=
  let final :=
    if st.buffer = [] then st.held_sentence
    else
      let cleaned := post_clean_sentence st.buffer
      if cleaned = [] then st.held_sentence
      else if st.held_sentence = [] then cleaned
      else joinHeld st.held_sentence cleaned
  (final, ⟨[], []⟩)

/-- Feed a list of chunks to a detector in order (each `add_chunk` call
gets `fuel` units of fuel), collecting every yielded sentence unit. -/
def runAddChunks (fuel : Nat) (st : SentenceBoundaryDetector) :
    List (List Char) → Option (List (List Char) × SentenceBoundaryDetector)
  | [] => some ([], st)
  | c :: cs =>
    match add_chunk fuel st c with
    | none => none
    | some (outs, st') =>
      match runAddChunks fuel st' cs with
      | none => none
      | some (outs', st'') => some (outs ++ outs', st'')

/-- Feed a list of chunks to a fresh detector and then call `finish`:
the yielded units together with the final text. -/
def run_chunks (fuel : Nat) (chunks : List (List Char)) :
    Option (List (List Char) × List Char) :=
  match runAddChunks fuel ⟨[], []⟩ chunks with
  | none => none
  | some (outs, st) => some (outs, (finish st).1)

/-- `syncs c2 fuel buf = true` when every cut the loop performs starting
from buffer `buf` is taken identically once `c2` is appended to the end
of the buffer: no cut decision depends on the current end of the input.
This is the stability proviso of the chunk-boundary-independence claim. -/
def syncs (c2 : List Char) : Nat → List Char → Bool
  | 0, _ => true
  | fuel + 1, buf =>
    match addChunkStep buf with
    | .wait => true
    | .cut s r => decide (addChunkStep (buf ++ c2) = .cut s (r ++ c2)) && syncs c2 fuel r

/-! ## The session orchestrator `SpeechEventHandler` (handler.py)

The Wyoming wire protocol is abstracted into typed inbound and outbound
events.  The synthesizer (`SpeechTTS.synthesize`, an external
collaborator behind an asyncio lock) is abstracted as a function
`synthFn` from the normalized text to `Option` audio bytes — `none`
models the `None` returned both for empty normalized text and for a
raised synthesis failure (speech_tts.py lines 249–282); voice and rate
selection only change which speaker the synthesizer uses, so they are
folded into `synthFn`.  Audio bytes are modelled as `List Nat`. -/

/-- Inbound protocol events dispatched by `handle_event`
(handler.py lines 50–99). -/
inductive InEvent where
  | describe : InEvent
  | synthesize (text : List Char) (voice : Option String) : InEvent
  | synthesizeStart (voice : Option String) : InEvent
  | synthesizeChunk (text : List Char) : InEvent
  | synthesizeStop : InEvent
  | other : InEvent
  deriving DecidableEq, Repr

/-- Outbound notifications written by the handler. -/
inductive OutEvent where
  | info : OutEvent
  | audioStart (rate width channels : Nat) : OutEvent
  | audioChunk (audio : List Nat) : OutEvent
  | audioStop : OutEvent
  | synthesizeStopped : OutEvent
  | error (text : String) : OutEvent
  deriving DecidableEq, Repr

/-- Audio format and framing configuration: `sample_rate`,
`sample_width`, `channels` from `SpeechTTS` (speech_tts.py lines
17–19 and 139–141) and `samples_per_chunk` from the CLI arguments. -/
structure TTSConfig where
  sampleRate : Nat
  sampleWidth : Nat
  channels : Nat
  samplesPerChunk : Nat
  deriving DecidableEq, Repr

/-- The per-connection mutable state of `SpeechEventHandler`
(handler.py lines 44–46): the streaming flag, the live
`SentenceBoundaryDetector`, and the pending `Synthesize` object
(modelled by its text and voice), each `None` outside a stream. -/
structure HandlerState where
  is_streaming : Bool
  sbd : Option SentenceBoundaryDetector
  synthPending : Option (List Char × Option String)
  deriving DecidableEq, Repr

/-- The state after `__init__` and after the exception handler's reset
(handler.py lines 44–46 and 104–106). -/
def resetState : HandlerState := ⟨false, none, none⟩

/-- `" ".join(text.strip().splitlines())` (handler.py line 128):
newlines (including `\r\n` pairs) become single spaces. -/
def joinLines : List Char → List Char
  | [] => []
  | '\r' :: '\n' :: rest => ' ' :: joinLines rest
  | c :: rest => (if c == '\n' || c == '\r' then ' ' else c) :: joinLines rest

/-- Slice `audio` into frames of `k` bytes (`range(0, len, k)` slicing,
handler.py lines 153–157); fuel-driven, initialised with the length. -/
def chunkListGo : Nat → Nat → List Nat → List (List Nat)
  | 0, _, _ => []
  | _, _, [] => []
  | fuel + 1, k, xs => xs.take k :: chunkListGo fuel k (xs.drop k)

/-- `_handle_synthesize` (handler.py lines 110–167) as a pure function:
the outbound events it writes and its Boolean return value (which is
always `True`).  Empty text is skipped silently; a `None` synthesis
result produces a single error notification; otherwise the audio is
framed between audio-start and audio-stop notifications. -/
def handle_synthesize (cfg : TTSConfig) (synthFn : List Char → Option (List Nat))
    (text : List Char) : List OutEvent × Bool :=
  if text = [] then ([], true)
  else
    let ntext := joinLines (stripWs text)
    match synthFn ntext with
    | none => ([.error "TTS synthesis failed"], true)
    | some audio =>
      let bytesPerChunk := cfg.sampleWidth * cfg.channels * cfg.samplesPerChunk
      let frames :=
        if 0 < bytesPerChunk then chunkListGo audio.length bytesPerChunk audio
        else if audio ≠ [] then [audio] else []
      (.audioStart cfg.sampleRate cfg.sampleWidth cfg.channels ::
        (frames.map .audioChunk ++ [.audioStop]), true)

/-- `handle_event` (handler.py lines 50–107) as a pure function: given
the session state, the inbound event, and a flag `fail` telling whether
an unrecoverable exception is raised while handling this event inside
the `try` block, return the new state, the outbound events, and the
Boolean the handler returns to the server loop (`false` ends the
connection).  The chunk path threads the fuel into `add_chunk`; `none`
models that call never finishing.  A chunk or stop event arriving with
no live detector trips the `assert` statements (lines 72–73 and 83–84),
which the `except` block turns into an error notification plus a reset,
like any other exception. -/
def handle_event (cfg : TTSConfig) (synthFn : List Char → Option (List Nat)) (fuel : Nat)
    (st : HandlerState) (ev : InEvent) (fail : Bool) :
    Option (HandlerState × List OutEvent × Bool) :=
  match ev with
  | .describe => some (st, [.info], true)
  | .synthesize t _v =>
    if st.is_streaming then some (st, [], true)
    else if fail then some (resetState, [.error "exception"], false)
    else
      let r := handle_synthesize cfg synthFn t
      some (st, r.1, r.2)
  | .synthesizeStart v =>
    if fail then some (resetState, [.error "exception"], false)
    else some (⟨true, some ⟨[], []⟩, some ([], v)⟩, [], true)
  | .synthesizeChunk t =>
    if fail then some (resetState, [.error "exception"], false)
    else
      match st.synthPending, st.sbd with
      | some pend, some d =>
        match add_chunk fuel d t with
        | none => none
        | some (sentences, d') =>
          some ({ st with sbd := some d',
                          synthPending := some (sentences.getLastD pend.1, pend.2) },
                (sentences.map fun s => (handle_synthesize cfg synthFn s).1).flatten, true)
      | _, _ => some (resetState, [.error "exception"], false)
  | .synthesizeStop =>
    if fail then some (resetState, [.error "exception"], false)
    else
      match st.synthPending, st.sbd with
      | some _pend, some d =>
        some (resetState,
              (if (finish d).1 ≠ [] then (handle_synthesize cfg synthFn (finish d).1).1 else [])
                ++ [.synthesizeStopped], true)
      | _, _ => some (resetState, [.error "exception"], false)
  | .other => some (st, [], true)

/-- The session-state coherence invariant of the handler: a live
detector and a pending synthesize object exist exactly while the
session is streaming. -/
def coherent (st : HandlerState) : Prop :=
  (st.is_streaming = true ↔ st.sbd.isSome = true) ∧
  (st.is_streaming = true ↔ st.synthPending.isSome = true)

/-- A buffer on which the forced hard-limit split makes no progress:
a space at index 0 followed by 350 non-space, non-terminator
characters. -/
def overflowChunk : List Char := ' ' :: List.replicate 350 'a'

/-! ## Helper lemmas -/

theorem addChunkLoop_succ_wait (f : Nat) (buf held : List Char)
    (h : addChunkStep buf = .wait) :
    addChunkLoop (f + 1) buf held = some ([], buf, held) := by
  simp [addChunkLoop, h]

theorem addChunkLoop_succ_cut (f : Nat) (buf held s r : List Char)
    (h : addChunkStep buf = .cut s r) :
    addChunkLoop (f + 1) buf held =
      match addChunkLoop f r (maybe_yield held s).2 with
      | none => none
      | some (outs, b, hh) => some ((maybe_yield held s).1 ++ outs, b, hh) := by
  simp [addChunkLoop, h]

theorem addChunkLoop_mono : ∀ (f g : Nat) (buf held : List Char) r,
    addChunkLoop f buf held = some r → f ≤ g → addChunkLoop g buf held = some r := by
  intro f
  induction f with
  | zero => intro g buf held r h; simp [addChunkLoop] at h
  | succ n ih =>
    intro g buf held r h hle
    obtain ⟨g', rfl⟩ : ∃ g', g = g' + 1 := ⟨g - 1, by omega⟩
    rcases hstep : addChunkStep buf with _ | ⟨s, rest⟩
    · rw [addChunkLoop_succ_wait n buf held hstep] at h
      rw [addChunkLoop_succ_wait g' buf held hstep]
      exact h
    · rw [addChunkLoop_succ_cut n buf held s rest hstep] at h
      rw [addChunkLoop_succ_cut g' buf held s rest hstep]
      rcases hrec : addChunkLoop n rest (maybe_yield held s).2 with _ | ⟨⟨outs, b, hh⟩⟩
      · rw [hrec] at h; exact absurd h (by simp)
      · rw [hrec] at h
        rw [ih g' rest (maybe_yield held s).2 _ hrec (by omega)]
        exact h

/-- Any sentence unit yielded by `_maybe_yield` has reached the merge
threshold: the yield on line 73 is guarded by the length test on
line 72. -/
theorem maybe_yield_length {held t u : List Char} (h : u ∈ (maybe_yield held t).1) :
    MERGE_BUFFER_LIMIT ≤ u.length := by
  by_cases h0 : post_clean_sentence t = []
  · simp [maybe_yield, h0] at h
  · by_cases h1 : MERGE_BUFFER_LIMIT ≤
        (if held = [] then post_clean_sentence t
         else joinHeld held (post_clean_sentence t)).length
    · simp only [maybe_yield, h0, if_false, if_pos h1, List.mem_singleton] at h
      exact h ▸ h1
    · simp [maybe_yield, h0, h1] at h

theorem maybe_yield_nil (held : List Char) : maybe_yield held [] = ([], held) := rfl

set_option maxRecDepth 100000 in
theorem overflow_step : addChunkStep overflowChunk = .cut [] overflowChunk := by
  decide

theorem overflow_loop : ∀ (fuel : Nat) (held : List Char),
    addChunkLoop fuel overflowChunk held = none := by
  intro fuel
  induction fuel with
  | zero => intro held; rfl
  | succ n ih =>
    intro held
    rw [addChunkLoop_succ_cut n overflowChunk held [] overflowChunk overflow_step,
        maybe_yield_nil, ih]

/-- Merging two consecutive chunks of the cut loop: if every cut taken
while draining `buf` is stable under appending `c2`, then finishing the
drain of `buf` and starting over on the leftover with `c2` appended is
the same as draining `buf ++ c2` in one go. -/
theorem addChunkLoop_merge (c2 : List Char) :
    ∀ (f1 : Nat) (buf held : List Char) (o1 : List (List Char)) (B1 h1 : List Char)
      (f2 : Nat) (o2 : List (List Char)) (B2 h2 : List Char),
      addChunkLoop f1 buf held = some (o1, B1, h1) →
      syncs c2 f1 buf = true →
      addChunkLoop f2 (B1 ++ c2) h1 = some (o2, B2, h2) →
      addChunkLoop (f1 + f2) (buf ++ c2) held = some (o1 ++ o2, B2, h2) := by
  intro f1
  induction f1 with
  | zero => intro buf held o1 B1 h1 f2 o2 B2 h2 h; simp [addChunkLoop] at h
  | succ n ih =>
    intro buf held o1 B1 h1 f2 o2 B2 h2 h hs h2run
    rcases hstep : addChunkStep buf with _ | ⟨s, rest⟩
    · rw [addChunkLoop_succ_wait n buf held hstep] at h
      simp only [Option.some.injEq, Prod.mk.injEq] at h
      obtain ⟨rfl, rfl, rfl⟩ := h
      simp only [List.nil_append]
      exact addChunkLoop_mono f2 (n + 1 + f2) _ _ _ h2run (by omega)
    · have hs' : addChunkStep (buf ++ c2) = .cut s (rest ++ c2) ∧ syncs c2 n rest = true := by
        have := hs
        rw [syncs, hstep] at this
        simpa [Bool.and_eq_true, decide_eq_true_eq] using this
      rw [addChunkLoop_succ_cut n buf held s rest hstep] at h
      rcases hrec : addChunkLoop n rest (maybe_yield held s).2 with _ | ⟨⟨o1', B1', h1'⟩⟩
      · rw [hrec] at h; exact absurd h (by simp)
      · rw [hrec] at h
        simp only [Option.some.injEq, Prod.mk.injEq] at h
        obtain ⟨ho, hB, hh⟩ := h
        rw [← hB, ← hh] at h2run
        have ihh := ih rest (maybe_yield held s).2 o1' B1' h1' f2 o2 B2 h2 hrec hs'.2 h2run
        have hfs : n + 1 + f2 = (n + f2) + 1 := by omega
        rw [hfs, addChunkLoop_succ_cut (n + f2) (buf ++ c2) held s (rest ++ c2) hs'.1, ihh, ← ho,
            List.append_assoc]

/-! ## The claims -/

/-- C1.  A period that is the very last character of the pending buffer
and is immediately preceded by a digit is never used as a cut point:
when the boundary search selects it, the loop breaks and waits for more
input (first conjunct), while any terminator matched strictly before the
current end of the buffer is cut as a normal boundary regardless of the
digit-period pattern (second conjunct).  Consequently a decimal number
split across two chunks is never cut at the embedded period: streaming
"The value is 3." then "14 meters exactly." emits the single unit
"The value is 3.14 meters exactly." (third conjunct). -/
theorem claim_C1 (buf held : List Char) (fuel i : Nat) (hfb : findBoundary buf = some i) :
    ((buf.getD i 'x' = '.' ∧ i + 1 = buf.length ∧ 0 < i ∧
        (buf.getD (i - 1) 'x').isDigit = true) →
      addChunkLoop (fuel + 1) buf held = some ([], buf, held)) ∧
    (i + 1 < buf.length →
      addChunkStep buf = .cut (buf.take (i + 1)) (buf.drop (i + 1))) ∧
    run_chunks 10 ["The value is 3.".toList, "14 meters exactly.".toList] =
      some (["The value is 3.14 meters exactly.".toList], []) := by
  refine ⟨?_, ?_, by decide⟩
  · intro hg
    have hstep : addChunkStep buf = .wait := by
      simp only [addChunkStep, hfb]
      rw [if_pos hg]
    exact addChunkLoop_succ_wait fuel buf held hstep
  · intro hlt
    simp only [addChunkStep, hfb]
    rw [if_neg]
    intro hg
    omega

theorem claim_C1_witness :
    addChunkLoop 5 "The value is 3.".toList [] = some ([], "The value is 3.".toList, []) :=
  (claim_C1 "The value is 3.".toList [] 4 14 (by decide)).1 (by decide)

/-- C2 (code bug).  The spec promises that `add_chunk` is finite per
call because every forced hard-limit split strictly shrinks the buffer,
but when the only space within the first `HARD_LIMIT` characters sits at
index 0, `buffer.rfind(' ', 0, HARD_LIMIT)` returns 0, the forced split
cuts an empty fragment, leaves the buffer unchanged and continues: the
loop never breaks.  On the fresh detector fed one chunk consisting of a
space followed by 350 letters, `add_chunk` exhausts any amount of fuel. -/
theorem claim_C2_diverges (fuel : Nat) :
    add_chunk fuel ⟨[], []⟩ overflowChunk = none := by
  show (match addChunkLoop fuel ([] ++ overflowChunk) [] with
        | none => none
        | some (outs, b, h) => some (outs, (⟨b, h⟩ : SentenceBoundaryDetector))) = none
  rw [List.nil_append, overflow_loop fuel []]

/-- C5.  After `finish` returns, both the pending buffer and the held
accumulation are empty; a second `finish` with no intervening input
returns the empty string, and any later `add_chunk` behaves exactly as
on a freshly constructed detector. -/
theorem claim_C5 (st : SentenceBoundaryDetector) :
    (finish st).2 = ⟨[], []⟩ ∧
    finish (finish st).2 = ([], ⟨[], []⟩) ∧
    ∀ (fuel : Nat) (chunk : List Char),
      add_chunk fuel (finish st).2 chunk = add_chunk fuel ⟨[], []⟩ chunk :=
  ⟨rfl, rfl, fun _ _ => rfl⟩

/-- C6.  Every sentence unit yielded by `add_chunk` has length at least
the merge threshold `MERGE_BUFFER_LIMIT` (20): `_maybe_yield` only
yields after the held accumulation reaches the threshold, so a shorter
cleaned fragment is kept in the held accumulation instead of being
emitted standalone. -/
theorem claim_C6 : ∀ (fuel : Nat) (buf held : List Char) (outs : List (List Char))
    (B h : List Char), addChunkLoop fuel buf held = some (outs, B, h) →
    ∀ u ∈ outs, MERGE_BUFFER_LIMIT ≤ u.length := by
  intro fuel
  induction fuel with
  | zero => intro buf held outs B h hrun; simp [addChunkLoop] at hrun
  | succ n ih =>
    intro buf held outs B h hrun u hu
    rcases hstep : addChunkStep buf with _ | ⟨s, rest⟩
    · rw [addChunkLoop_succ_wait n buf held hstep] at hrun
      simp only [Option.some.injEq, Prod.mk.injEq] at hrun
      obtain ⟨rfl, -, -⟩ := hrun
      simp at hu
    · rw [addChunkLoop_succ_cut n buf held s rest hstep] at hrun
      rcases hrec : addChunkLoop n rest (maybe_yield held s).2 with _ | ⟨⟨o', B', h'⟩⟩
      · rw [hrec] at hrun; exact absurd hrun (by simp)
      · rw [hrec] at hrun
        simp only [Option.some.injEq, Prod.mk.injEq] at hrun
        obtain ⟨ho, -, -⟩ := hrun
        rw [← ho] at hu
        rcases List.mem_append.mp hu with hy | hy
        · exact maybe_yield_length hy
        · exact ih rest (maybe_yield held s).2 o' B' h' hrec u hy

theorem claim_C6_witness :
    MERGE_BUFFER_LIMIT ≤ "The value is 3.14 meters exactly.".toList.length :=
  claim_C6 10 "The value is 3.14 meters exactly.".toList []
    ["The value is 3.14 meters exactly.".toList] [] [] (by decide)
    "The value is 3.14 meters exactly.".toList (by decide)

/-- C3 (counterexample).  Chunk-boundary independence fails even without
any forced hard-limit split: delivered as one chunk, "Hello. world"
yields no unit and `finish` returns "Hello. world" (the period is not a
boundary, since " world" is neither all-whitespace nor
whitespace-then-uppercase); delivered as "Hello." then " world", the
period sits at the end of the buffer, the `\s*$` lookahead accepts it,
"Hello." is cut and held, and `finish` returns "Hello, world". -/
theorem claim_C3_cex :
    run_chunks 10 ["Hello. world".toList] ≠
      run_chunks 10 ["Hello.".toList, " world".toList] := by
  decide

/-- C3 (amended).  Feeding `c1` then `c2` to a detector is equivalent to
feeding `c1 ++ c2` in one call, provided every cut taken while
processing `c1` is stable under appending `c2` (the `syncs` proviso): the
yielded units concatenate and the final states agree, so the rest of any
run, including `finish`, coincides as well.  The proviso is exactly what
a forced hard-limit split or an end-of-buffer-dependent boundary
acceptance can break, as the counterexample shows. -/
theorem claim_C3 (st : SentenceBoundaryDetector) (c1 c2 : List Char) (f1 f2 : Nat)
    (o1 : List (List Char)) (st1 : SentenceBoundaryDetector)
    (o2 : List (List Char)) (st2 : SentenceBoundaryDetector)
    (h1 : add_chunk f1 st c1 = some (o1, st1))
    (h2 : add_chunk f2 st1 c2 = some (o2, st2))
    (hs : syncs c2 f1 (st.buffer ++ c1) = true) :
    add_chunk (f1 + f2) st (c1 ++ c2) = some (o1 ++ o2, st2) := by
  rcases hrun1 : addChunkLoop f1 (st.buffer ++ c1) st.held_sentence with _ | ⟨⟨oA, bA, hA⟩⟩
  · rw [add_chunk, hrun1] at h1; exact absurd h1 (by simp)
  · rw [add_chunk, hrun1] at h1
    simp only [Option.some.injEq, Prod.mk.injEq] at h1
    obtain ⟨rfl, rfl⟩ := h1
    rcases hrun2 : addChunkLoop f2 (bA ++ c2) hA with _ | ⟨⟨oB, bB, hB⟩⟩
    · rw [add_chunk, hrun2] at h2
      exact absurd h2 (by simp)
    · rw [add_chunk] at h2
      simp only at h2
      rw [hrun2] at h2
      simp only [Option.some.injEq, Prod.mk.injEq] at h2
      obtain ⟨rfl, rfl⟩ := h2
      have hm := addChunkLoop_merge c2 f1 (st.buffer ++ c1) st.held_sentence oA bA hA
        f2 oB bB hB hrun1 hs hrun2
      rw [add_chunk, ← List.append_assoc, hm]

theorem claim_C3_witness :
    add_chunk 6 ⟨[], []⟩ ("Wxyz abcd efgh. Next".toList ++ " stuff.".toList) =
      some (([] : List (List Char)) ++ ["Wxyz abcd efgh, Next stuff.".toList], ⟨[], []⟩) :=
  claim_C3 ⟨[], []⟩ "Wxyz abcd efgh. Next".toList " stuff.".toList 3 3
    [] ⟨" Next".toList, "Wxyz abcd efgh.".toList⟩
    ["Wxyz abcd efgh, Next stuff.".toList] ⟨[], []⟩
    (by decide) (by decide) (by decide)

/-- C4.  The merge-and-emit step `_maybe_yield`: a fragment whose
cleaned form is empty is silently discarded (first conjunct); a
non-empty cleaned fragment becomes the held text when nothing is held
(second conjunct); otherwise it is appended to the held text joined by a
single space after the held text's trailing period is rewritten to a
comma (third conjunct, `joinHeld` spelt out); in all cases the held text
is emitted exactly when it has reached the merge threshold.
Consequently, streaming the single chunk "Hello. World is great." — with
"Hello." (6 characters) below the threshold 20 — produces the single
merged unit "Hello, World is great." (fourth conjunct). -/
theorem claim_C4 :
    (∀ held t, post_clean_sentence t = [] → maybe_yield held t = ([], held)) ∧
    (∀ t, post_clean_sentence t ≠ [] →
      maybe_yield [] t =
        if MERGE_BUFFER_LIMIT ≤ (post_clean_sentence t).length
        then ([post_clean_sentence t], []) else ([], post_clean_sentence t)) ∧
    (∀ held t, held ≠ [] → post_clean_sentence t ≠ [] →
      joinHeld held (post_clean_sentence t) =
        (if held.getLast? = some '.' then held.dropLast ++ [','] else held) ++
          ' ' :: post_clean_sentence t ∧
      maybe_yield held t =
        if MERGE_BUFFER_LIMIT ≤ (joinHeld held (post_clean_sentence t)).length
        then ([joinHeld held (post_clean_sentence t)], [])
        else ([], joinHeld held (post_clean_sentence t))) ∧
    add_chunk 10 ⟨[], []⟩ "Hello. World is great.".toList =
      some (["Hello, World is great.".toList], ⟨[], []⟩) := by
  refine ⟨?_, ?_, ?_, by decide⟩
  · intro held t h0
    simp [maybe_yield, h0]
  · intro t h0
    simp [maybe_yield, h0]
  · intro held t hheld h0
    refine ⟨rfl, ?_⟩
    simp [maybe_yield, h0, hheld]

theorem claim_C4_witness :
    maybe_yield "Hello.".toList " World is great.".toList =
      (["Hello, World is great.".toList], []) := by
  have h := (claim_C4.2.2.1 "Hello.".toList " World is great.".toList
    (by decide) (by decide)).2
  rw [h]
  decide

/-- C7 (counterexample).  When the synthesis call yields no audio
(`synthesize` returns `None`, covering both empty normalized text and a
raised failure), `_handle_synthesize` does emit a notification: the
handler writes `Error(text="TTS synthesis failed")` (handler.py lines
135–138), contradicting the claim that no error notification is emitted
for that unit. -/
theorem claim_C7_cex :
    (handle_synthesize ⟨24000, 2, 1, 1024⟩ (fun _ => none) "hello".toList).1 =
      [OutEvent.error "TTS synthesis failed"] := rfl

/-- C7 (amended).  For every sentence unit with non-empty text whose
synthesis call yields no audio, the orchestrator skips audio emission —
no audio-start, audio-frame or audio-stop notification — but emits
exactly one error notification ("TTS synthesis failed"), and returns
`True` so the session continues normally with the next unit. -/
theorem claim_C7 (cfg : TTSConfig) (synthFn : List Char → Option (List Nat))
    (text : List Char) (hne : text ≠ [])
    (hnone : synthFn (joinLines (stripWs text)) = none) :
    handle_synthesize cfg synthFn text = ([OutEvent.error "TTS synthesis failed"], true) := by
  rw [handle_synthesize, if_neg hne]
  simp only [hnone]

theorem claim_C7_witness :
    handle_synthesize ⟨24000, 2, 1, 1024⟩ (fun _ => none) "skip this".toList =
      ([OutEvent.error "TTS synthesis failed"], true) :=
  claim_C7 ⟨24000, 2, 1, 1024⟩ (fun _ => none) "skip this".toList (by decide) rfl

/-- C8 (counterexample).  On an unrecoverable exception while handling a
stream event the handler does emit one error notification and reset the
session, but `handle_event` returns `False` (handler.py line 107), which
tells the Wyoming server loop to terminate the connection — contradicting
the claim that the connection stays open. -/
theorem claim_C8_cex :
    handle_event ⟨24000, 2, 1, 1024⟩ (fun _ => none) 5
        ⟨true, some ⟨[], []⟩, some ([], none)⟩ InEvent.synthesizeStop true =
      some (resetState, [OutEvent.error "exception"], false) := rfl

/-- C8 (amended).  If an unrecoverable exception is raised while
handling any stream event inside the `try` block, the handler emits
exactly one error notification, discards the live segmentation engine
and pending synthesize state (the session returns to Idle), and returns
`False`, signalling that the connection should terminate rather than
continue.  The one-shot path is only reachable when the session is not
streaming, since the streaming check precedes any fallible statement. -/
theorem claim_C8 (cfg : TTSConfig) (synthFn : List Char → Option (List Nat)) (fuel : Nat)
    (sb : Option SentenceBoundaryDetector) (p : Option (List Char × Option String))
    (st : HandlerState) (t : List Char) (v : Option String) :
    handle_event cfg synthFn fuel ⟨false, sb, p⟩ (InEvent.synthesize t v) true =
      some (resetState, [OutEvent.error "exception"], false) ∧
    handle_event cfg synthFn fuel st (InEvent.synthesizeStart v) true =
      some (resetState, [OutEvent.error "exception"], false) ∧
    handle_event cfg synthFn fuel st (InEvent.synthesizeChunk t) true =
      some (resetState, [OutEvent.error "exception"], false) ∧
    handle_event cfg synthFn fuel st InEvent.synthesizeStop true =
      some (resetState, [OutEvent.error "exception"], false) :=
  ⟨rfl, rfl, rfl, rfl⟩

/-- C9.  A one-shot synthesize request arriving while the session is
streaming is ignored: the handler returns `True` immediately, before any
fallible statement, emitting no events, performing no synthesis, and
leaving the streaming flag, the segmentation engine and the pending
synthesize state untouched. -/
theorem claim_C9 (cfg : TTSConfig) (synthFn : List Char → Option (List Nat)) (fuel : Nat)
    (sb : Option SentenceBoundaryDetector) (p : Option (List Char × Option String))
    (t : List Char) (v : Option String) (fail : Bool) :
    handle_event cfg synthFn fuel ⟨true, sb, p⟩ (InEvent.synthesize t v) fail =
      some (⟨true, sb, p⟩, [], true) := rfl

theorem coherent_reset : coherent resetState := by
  constructor <;> simp [resetState]

/-- C10.  The handler's session-state fields are mutually coherent: the
initial state is coherent (first conjunct); in a coherent streaming
state the detector and the pending synthesize object both exist, so the
`assert` statements on the chunk and stop paths cannot fire (second
conjunct); and handling any event from a coherent state — including via
the exception path — leaves a coherent state (third conjunct). -/
theorem claim_C10 :
    coherent ⟨false, none, none⟩ ∧
    (∀ st : HandlerState, coherent st → st.is_streaming = true →
      st.sbd.isSome = true ∧ st.synthPending.isSome = true) ∧
    ∀ (cfg : TTSConfig) (synthFn : List Char → Option (List Nat)) (fuel : Nat)
      (st : HandlerState) (ev : InEvent) (fail : Bool)
      (st' : HandlerState) (evs : List OutEvent) (b : Bool),
      coherent st → handle_event cfg synthFn fuel st ev fail = some (st', evs, b) →
      coherent st' := by
  refine ⟨⟨by simp, by simp⟩, fun st hc hs => ⟨hc.1.mp hs, hc.2.mp hs⟩, ?_⟩
  intro cfg synthFn fuel st ev fail st' evs b hc h
  cases ev with
  | describe =>
    simp only [handle_event, Option.some.injEq, Prod.mk.injEq] at h
    exact h.1 ▸ hc
  | synthesize t v =>
    by_cases hstr : st.is_streaming
    · simp only [handle_event, hstr, if_true, Option.some.injEq, Prod.mk.injEq] at h
      exact h.1 ▸ hc
    · by_cases hf : fail
      · simp only [handle_event, hstr, hf, if_true, if_false, Bool.false_eq_true,
          Option.some.injEq, Prod.mk.injEq] at h
        exact h.1 ▸ coherent_reset
      · simp only [handle_event, hstr, hf, if_false, Bool.false_eq_true,
          Option.some.injEq, Prod.mk.injEq] at h
        exact h.1 ▸ hc
  | synthesizeStart v =>
    by_cases hf : fail
    · simp only [handle_event, hf, if_true, Option.some.injEq, Prod.mk.injEq] at h
      exact h.1 ▸ coherent_reset
    · simp only [handle_event, hf, if_false, Bool.false_eq_true,
        Option.some.injEq, Prod.mk.injEq] at h
      exact h.1 ▸ ⟨by simp, by simp⟩
  | synthesizeChunk t =>
    by_cases hf : fail
    · simp only [handle_event, hf, if_true, Option.some.injEq, Prod.mk.injEq] at h
      exact h.1 ▸ coherent_reset
    · rcases hp : st.synthPending with _ | pend <;> rcases hd : st.sbd with _ | d <;>
        simp only [handle_event, hf, if_false, Bool.false_eq_true, hp, hd] at h
      · simp only [Option.some.injEq, Prod.mk.injEq] at h
        exact h.1 ▸ coherent_reset
      · simp only [Option.some.injEq, Prod.mk.injEq] at h
        exact h.1 ▸ coherent_reset
      · simp only [Option.some.injEq, Prod.mk.injEq] at h
        exact h.1 ▸ coherent_reset
      · have hstr : st.is_streaming = true := hc.1.mpr (by simp [hd])
        rcases hac : add_chunk fuel d t with _ | ⟨⟨sentences, d'⟩⟩ <;> rw [hac] at h
        · exact absurd h (by simp)
        · simp only [Option.some.injEq, Prod.mk.injEq] at h
          refine h.1 ▸ ⟨?_, ?_⟩ <;> simp [hstr]
  | synthesizeStop =>
    by_cases hf : fail
    · simp only [handle_event, hf, if_true, Option.some.injEq, Prod.mk.injEq] at h
      exact h.1 ▸ coherent_reset
    · rcases hp : st.synthPending with _ | pend <;> rcases hd : st.sbd with _ | d <;>
        simp only [handle_event, hf, if_false, Bool.false_eq_true, hp, hd,
          Option.some.injEq, Prod.mk.injEq] at h <;>
        exact h.1 ▸ coherent_reset
  | other =>
    simp only [handle_event, Option.some.injEq, Prod.mk.injEq] at h
    exact h.1 ▸ hc

theorem claim_C10_witness : coherent ⟨true, some ⟨[], []⟩, some ([], none)⟩ :=
  claim_C10.2.2 ⟨24000, 2, 1, 1024⟩ (fun _ => none) 0 ⟨false, none, none⟩
    (InEvent.synthesizeStart none) false ⟨true, some ⟨[], []⟩, some ([], none)⟩ [] true
    claim_C10.1 rfl

end WyomingSilero
